import Mathlib

/-!
Verification of the alpha merge/add engine of `samseg/cli/merge_add_mesh_alphas.py`.

The script edits the per-vertex class-probability matrix ("alphas") of a
SAMSEG atlas mesh: it blends estimated per-subject statistics into existing
columns (merge), renormalizes rows, and appends new class columns (add).

Shallow embedding: the alphas matrix is a list of rows (one per vertex) of
rational numbers; the estimated statistics array `[vertex][class][subject]`
is a list of lists of lists of rationals.  Exact rational arithmetic stands
in for numpy float64; `eps` is the exact value of `np.finfo(float).eps`.
Fallible steps (Python `list.index`, numpy axis indexing, the `NameError`
on the undefined loop variable in the names loop) return `Except`.
-/

namespace MergeAddMeshAlphas

/-- Alphas matrix: rows are vertices, columns are classes (float64 modelled
as exact rationals). -/
abbrev Mat := List (List ℚ)

/-- Estimated statistics array, indexed `[vertex][class][subject]`. -/
abbrev Est := List (List (List ℚ))

/-- Errors the script can raise while merging/adding. `UnknownLabelError` is
Python's `ValueError` from `list.index`; `IndexOutOfRangeError` is numpy's /
Python's `IndexError`; `NameError` is Python's error for reading the loop
variable `l` before any assignment. -/
inductive Err
  | UnknownLabelError
  | IndexOutOfRangeError
  | NameError
deriving DecidableEq, Repr

/-- `eps = np.finfo(float).eps` (line 56): the machine epsilon of float64,
exactly `2⁻⁵²`. -/
def eps : ℚ := 1 / 2 ^ 52

/-- `samseg_subjects = 20` (line 77): the hardcoded number of subjects
assumed to have built the base atlas. -/
def samseg_subjects : ℚ := 20

/-- `estimated_alphas.shape[2]`: the size of the subject axis. -/
def numSubjects (e : Est) : ℕ := ((e.headD []).headD []).length

/-- `estimated_alphas.shape[1]`: the size of the class axis. -/
def numEstClasses (e : Est) : ℕ := (e.headD []).length

/-- `np.sum(estimated_alphas[:, c, :], axis=1)` at vertex `v`: the sum over
subjects of the class-`c` slice. -/
def subjSum (e : Est) (v c : ℕ) : ℚ := ((e.getD v []).getD c []).sum

/-- `np.mean(estimated_alphas[:, c, :], axis=1)` at vertex `v`. -/
def subjMean (e : Est) (v c : ℕ) : ℚ := subjSum e v c / (numSubjects e : ℚ)

/-- numpy basic indexing on an axis of size `n`: indices in `[0, n)` are
taken as-is, indices in `[-n, 0)` count from the end, anything else raises
`IndexError`. -/
def npIndex (n : ℕ) (i : ℤ) : Option ℕ :=
  if 0 ≤ i ∧ i < (n : ℤ) then some i.toNat
  else if -(n : ℤ) ≤ i ∧ i < 0 then some (i + (n : ℤ)).toNat
  else none

/-- `npIndex` as an `Except`, raising `IndexOutOfRangeError`. -/
def npIndexE (n : ℕ) (i : ℤ) : Except Err ℕ :=
  match npIndex n i with
  | some c => .ok c
  | none => .error .IndexOutOfRangeError

/-- Python `list.index` semantics: position of the first element satisfying
`p`, `none` when there is no such element. -/
def pyFind {α : Type} (p : α → Bool) : List α → Option ℕ
  | [] => none
  | x :: xs => if p x then some 0 else (pyFind p xs).map (· + 1)

/-- `freesurfer_labels.index(merge_label)` (line 145): `ValueError`
(= `UnknownLabelError`) when the label is absent. -/
def resolveLabel (fs : List ℤ) (lab : ℤ) : Except Err ℕ :=
  match pyFind (· == lab) fs with
  | some idx => .ok idx
  | none => .error .UnknownLabelError

/-- `names.index(merge_name)` (line 154). -/
def resolveName (names : List String) (nm : String) : Except Err ℕ :=
  match pyFind (· == nm) names with
  | some idx => .ok idx
  | none => .error .UnknownLabelError

/-- Lines 141-144 / 150-153: the source index for enumeration position `l`:
`merge_indexes[l]` when `--merge-indexes` was given (Python `IndexError` when
the list is too short), else `l + 1`. -/
def resolveIdx2 (mergeIndexes : Option (List ℤ)) (l : ℕ) : Except Err ℤ :=
  match mergeIndexes with
  | some mi =>
      match mi.get? l with
      | some i => .ok i
      | none => .error .IndexOutOfRangeError
  | none => .ok ((l : ℤ) + 1)

/-- The merge update for one entry (lines 146-147 / 155-156):
`(old * samseg_subjects + np.sum(estimated[:, c, :], axis=1))
 / (samseg_subjects + estimated.shape[2])` at vertex `v`. -/
def mergeFormula (e : Est) (v c : ℕ) (old : ℚ) : ℚ :=
  (old * samseg_subjects + subjSum e v c) / (samseg_subjects + (numSubjects e : ℚ))

/-- In-place column update `alphas[:, idx] = ...` of the merge, walking the
rows with their vertex index. -/
def mergeApplyAux (e : Est) (idx c : ℕ) : ℕ → Mat → Mat
  | _, [] => []
  | v, row :: rest =>
      row.set idx (mergeFormula e v c (row.getD idx 0)) :: mergeApplyAux e idx c (v + 1) rest

/-- One merge pair applied to the whole matrix (lines 146-147). -/
def mergeApply (e : Est) (idx c : ℕ) (A : Mat) : Mat := mergeApplyAux e idx c 0 A

/-- Row renormalization (lines 162-163 and 179-180):
`normalizer = np.sum(alphas, axis=1) + eps; alphas = alphas / normalizer`. -/
def renormalize (A : Mat) : Mat :=
  A.map fun r => r.map fun x => x / (r.sum + eps)

/-- The `--merge-labels` loop (lines 140-147): for each label at enumeration
position `l`, compute `idx2`, resolve the label to a column (in that order),
index the estimated class axis, and update that column in place. -/
def mergeLabelsAux (fs : List ℤ) (e : Est) (mi : Option (List ℤ)) :
    ℕ → List ℤ → Mat → Except Err Mat
  | _, [], A => .ok A
  | l, lab :: rest, A =>
      match resolveIdx2 mi l with
      | .error er => .error er
      | .ok i2 =>
          match resolveLabel fs lab with
          | .error er => .error er
          | .ok idx =>
              match npIndexE (numEstClasses e) i2 with
              | .error er => .error er
              | .ok c => mergeLabelsAux fs e mi (l + 1) rest (mergeApply e idx c A)

/-- The value the loop variable `l` has after the labels loop: Python leaves
`l` at the last enumeration index, and leaves it undefined (`none`, giving a
`NameError` on use) when the labels loop never ran. -/
def staleL (mergeLabels : Option (List ℤ)) : Option ℕ :=
  match mergeLabels with
  | some ls => if ls.isEmpty then none else some (ls.length - 1)
  | none => none

/-- The `--merge-names` loop (lines 149-156).  Faithful to the source: the
loop does not enumerate, so every iteration reuses the stale `l` left over
from the labels loop (a `NameError` when that loop never ran). -/
def mergeNamesAux (names : List String) (e : Est) (mi : Option (List ℤ))
    (lStale : Option ℕ) : List String → Mat → Except Err Mat
  | [], A => .ok A
  | nm :: rest, A =>
      match lStale with
      | none => .error .NameError
      | some l =>
          match resolveIdx2 mi l with
          | .error er => .error er
          | .ok i2 =>
              match resolveName names nm with
              | .error er => .error er
              | .ok idx =>
                  match npIndexE (numEstClasses e) i2 with
                  | .error er => .error er
                  | .ok c => mergeNamesAux names e mi lStale rest (mergeApply e idx c A)

/-- Both merge loops (lines 139-158), without the renormalization. -/
def mergeLoops (fs : List ℤ) (names : List String) (e : Est)
    (mergeLabels mergeIndexes : Option (List ℤ)) (mergeNames : Option (List String))
    (A : Mat) : Except Err Mat :=
  match (match mergeLabels with
         | some ls => mergeLabelsAux fs e mergeIndexes 0 ls A
         | none => .ok A) with
  | .error er => .error er
  | .ok A1 =>
      match mergeNames with
      | some ns => mergeNamesAux names e mergeIndexes (staleL mergeLabels) ns A1
      | none => .ok A1

/-- Lines 139-163: merge loops followed by the conditional renormalization
(`if args.merge_labels is not None or args.merge_names is not None`). -/
def mergePhase (fs : List ℤ) (names : List String) (e : Est)
    (mergeLabels mergeIndexes : Option (List ℤ)) (mergeNames : Option (List String))
    (A : Mat) : Except Err Mat :=
  match mergeLoops fs names e mergeLabels mergeIndexes mergeNames A with
  | .error er => .error er
  | .ok A1 =>
      if mergeLabels.isSome || mergeNames.isSome then .ok (renormalize A1)
      else .ok A1

/-- Single-class add (lines 170-174): append the per-vertex subject mean of
class `c` as a new last column and scale every pre-existing column by
`(1 - newColumn)`. -/
def addSingleAux (e : Est) (c : ℕ) : ℕ → Mat → Mat
  | _, [] => []
  | v, row :: rest =>
      (row.map (fun x => x * (1 - subjMean e v c)) ++ [subjMean e v c])
        :: addSingleAux e c (v + 1) rest

/-- Single-class add over the whole matrix. -/
def addSingle (e : Est) (c : ℕ) (A : Mat) : Mat := addSingleAux e c 0 A

/-- Multi-class add, appending step (lines 177-178): each new column is the
per-vertex subject mean of its class slice; old columns are left untouched. -/
def appendMeansAux (e : Est) (cs : List ℕ) : ℕ → Mat → Mat
  | _, [] => []
  | v, row :: rest =>
      (row ++ cs.map (fun c => subjMean e v c)) :: appendMeansAux e cs (v + 1) rest

/-- Multi-class append over the whole matrix. -/
def appendMeans (e : Est) (cs : List ℕ) (A : Mat) : Mat := appendMeansAux e cs 0 A

/-- Resolve every `--add-indexes` entry on the estimated class axis, in
order, stopping at the first numpy `IndexError`. -/
def resolveAll (n : ℕ) : List ℤ → Option (List ℕ)
  | [] => some []
  | i :: is =>
      match npIndex n i with
      | none => none
      | some c => (resolveAll n is).map (c :: ·)

/-- The add phase (lines 167-182): with exactly one index use the
single-class rescale policy, otherwise append all means and renormalize. -/
def addPhase (e : Est) (addIndexes : Option (List ℤ)) (A : Mat) : Except Err Mat :=
  match addIndexes with
  | none => .ok A
  | some is =>
      match resolveAll (numEstClasses e) is with
      | none => .error .IndexOutOfRangeError
      | some cs =>
          if is.length = 1 then .ok (addSingle e (cs.headD 0) A)
          else .ok (renormalize (appendMeans e cs A))

/-- One atlas level of `main` (lines 139-182): merge phase (with its
conditional renormalization) followed by the add phase.  An error aborts the
level before any output is emitted. -/
def processLevel (fs : List ℤ) (names : List String) (e : Est)
    (mergeLabels mergeIndexes : Option (List ℤ)) (mergeNames : Option (List String))
    (addIndexes : Option (List ℤ)) (A : Mat) : Except Err Mat :=
  match mergePhase fs names e mergeLabels mergeIndexes mergeNames A with
  | .error er => .error er
  | .ok A1 => addPhase e addIndexes A1

/-- The hypothetical reversed pipeline (add before merge), defined only to
compare orders: the script itself fixes merge-before-add. -/
def processLevelAddFirst (fs : List ℤ) (names : List String) (e : Est)
    (mergeLabels mergeIndexes : Option (List ℤ)) (mergeNames : Option (List String))
    (addIndexes : Option (List ℤ)) (A : Mat) : Except Err Mat :=
  match addPhase e addIndexes A with
  | .error er => .error er
  | .ok A1 => mergePhase fs names e mergeLabels mergeIndexes mergeNames A1

/-- Entry `A[v, j]`, with 0 outside the matrix. -/
def entry (A : Mat) (v j : ℕ) : ℚ := (A.getD v []).getD j 0

/-- The resolution part of the labels loop in isolation: the list of
(target column, estimated class) pairs the loop will process, in order. -/
def resolvedPairs (fs : List ℤ) (e : Est) (mi : Option (List ℤ)) :
    ℕ → List ℤ → Except Err (List (ℕ × ℕ))
  | _, [] => .ok []
  | l, lab :: rest =>
      match resolveIdx2 mi l with
      | .error er => .error er
      | .ok i2 =>
          match resolveLabel fs lab with
          | .error er => .error er
          | .ok idx =>
              match npIndexE (numEstClasses e) i2 with
              | .error er => .error er
              | .ok c =>
                  match resolvedPairs fs e mi (l + 1) rest with
                  | .error er => .error er
                  | .ok ps => .ok ((idx, c) :: ps)

/-- Sequential application of resolved merge pairs (the pure content of the
labels loop). -/
def mergeRun (e : Est) (ps : List (ℕ × ℕ)) (A : Mat) : Mat :=
  ps.foldl (fun B p => mergeApply e p.1 p.2 B) A

/-! ### Helper lemmas -/

theorem eps_pos : 0 < eps := by norm_num [eps]

theorem eps_le_one : eps ≤ 1 := by norm_num [eps]

theorem sum_map_div (l : List ℚ) (c : ℚ) : (l.map fun x => x / c).sum = l.sum / c := by
  induction l with
  | nil => simp
  | cons x xs ih => simp [ih, add_div]

theorem sum_map_mul (l : List ℚ) (a : ℚ) : (l.map fun x => x * a).sum = l.sum * a := by
  induction l with
  | nil => simp
  | cons x xs ih => simp [ih, add_mul]

theorem getD_map_zero (f : ℚ → ℚ) (hf : f 0 = 0) (l : List ℚ) (j : ℕ) :
    (l.map f).getD j 0 = f (l.getD j 0) := by
  induction l generalizing j with
  | nil => simpa using hf.symm
  | cons x xs ih =>
      cases j with
      | zero => rfl
      | succ j => simpa using ih j

theorem getD_set_self (l : List ℚ) (i : ℕ) (x : ℚ) (h : i < l.length) :
    (l.set i x).getD i 0 = x := by
  rw [List.getD_eq_getD_get?, List.get?_set_eq_of_lt x h, Option.getD_some]

theorem getD_set_ne (l : List ℚ) (i j : ℕ) (h : i ≠ j) (x : ℚ) :
    (l.set i x).getD j 0 = l.getD j 0 := by
  rw [List.getD_eq_getD_get?, List.get?_set_ne x l h, ← List.getD_eq_getD_get?]

theorem renormalize_length (A : Mat) : (renormalize A).length = A.length := by
  simp [renormalize]

theorem renormalize_row (A : Mat) (v : ℕ) :
    (renormalize A).getD v []
      = ((A.getD v []).map fun x => x / ((A.getD v []).sum + eps)) := by
  induction A generalizing v with
  | nil => simp [renormalize]
  | cons row rest ih =>
      cases v with
      | zero => simp [renormalize]
      | succ v => simpa [renormalize] using ih v

theorem eps_add_pos {S : ℚ} (h : 0 ≤ S) : 0 < S + eps := by
  have := eps_pos; linarith

theorem renorm_sum_lt_one {S : ℚ} (h : 0 < S) : S / (S + eps) < 1 := by
  rw [div_lt_one (eps_add_pos h.le)]
  have := eps_pos; linarith

theorem renorm_sum_gt {S : ℚ} (h : 0 < S) : 1 - eps / S < S / (S + eps) := by
  have hpos : 0 < S + eps := eps_add_pos h.le
  have h1 : S / (S + eps) = 1 - eps / (S + eps) := by field_simp
  have h2 : eps / (S + eps) < eps / S :=
    div_lt_div_of_pos_left eps_pos h (by have := eps_pos; linarith)
  linarith

theorem mergeApplyAux_getD (e : Est) (idx c v0 : ℕ) (A : Mat) (k : ℕ) :
    (mergeApplyAux e idx c v0 A).getD k []
      = (A.getD k []).set idx (mergeFormula e (v0 + k) c ((A.getD k []).getD idx 0)) := by
  induction A generalizing v0 k with
  | nil => simp [mergeApplyAux]
  | cons row rest ih =>
      cases k with
      | zero => simp [mergeApplyAux]
      | succ k =>
          have h := ih (v0 + 1) k
          have harith : v0 + 1 + k = v0 + (k + 1) := by omega
          simpa [mergeApplyAux, harith] using h

theorem mergeApply_getD (e : Est) (idx c : ℕ) (A : Mat) (v : ℕ) :
    (mergeApply e idx c A).getD v []
      = (A.getD v []).set idx (mergeFormula e v c ((A.getD v []).getD idx 0)) := by
  simpa using mergeApplyAux_getD e idx c 0 A v

theorem mergeApply_length (e : Est) (idx c : ℕ) (A : Mat) :
    (mergeApply e idx c A).length = A.length := by
  rw [mergeApply]
  generalize 0 = v0
  induction A generalizing v0 with
  | nil => rfl
  | cons row rest ih => simp [mergeApplyAux, ih]

theorem mergeApply_rowLength (e : Est) (idx c : ℕ) (A : Mat) (v : ℕ) :
    ((mergeApply e idx c A).getD v []).length = ((A.getD v []).length) := by
  rw [mergeApply_getD, List.length_set]

theorem entry_mergeApply_self (e : Est) (idx c : ℕ) (A : Mat) (v : ℕ)
    (hidx : idx < (A.getD v []).length) :
    entry (mergeApply e idx c A) v idx = mergeFormula e v c (entry A v idx) := by
  rw [entry, entry, mergeApply_getD, getD_set_self _ _ _ hidx]

theorem entry_mergeApply_ne (e : Est) (idx c : ℕ) (A : Mat) (v j : ℕ) (h : idx ≠ j) :
    entry (mergeApply e idx c A) v j = entry A v j := by
  rw [entry, entry, mergeApply_getD, getD_set_ne _ _ _ h]

theorem appendMeansAux_getD (e : Est) (cs : List ℕ) (v0 : ℕ) (A : Mat) (k : ℕ)
    (h : k < A.length) :
    (appendMeansAux e cs v0 A).getD k []
      = (A.getD k []) ++ cs.map (fun c => subjMean e (v0 + k) c) := by
  induction A generalizing v0 k with
  | nil => simp at h
  | cons row rest ih =>
      cases k with
      | zero => simp [appendMeansAux]
      | succ k =>
          have h' : k < rest.length := by simpa using h
          have harith : v0 + 1 + k = v0 + (k + 1) := by omega
          simpa [appendMeansAux, harith] using ih (v0 + 1) k h'

theorem appendMeans_length (e : Est) (cs : List ℕ) (A : Mat) :
    (appendMeans e cs A).length = A.length := by
  rw [appendMeans]
  generalize 0 = v0
  induction A generalizing v0 with
  | nil => rfl
  | cons row rest ih => simp [appendMeansAux, ih]

theorem addSingleAux_getD (e : Est) (c : ℕ) (v0 : ℕ) (A : Mat) (k : ℕ)
    (h : k < A.length) :
    (addSingleAux e c v0 A).getD k []
      = (A.getD k []).map (fun x => x * (1 - subjMean e (v0 + k) c))
          ++ [subjMean e (v0 + k) c] := by
  induction A generalizing v0 k with
  | nil => simp at h
  | cons row rest ih =>
      cases k with
      | zero => simp [addSingleAux]
      | succ k =>
          have h' : k < rest.length := by simpa using h
          have harith : v0 + 1 + k = v0 + (k + 1) := by omega
          simpa [addSingleAux, harith] using ih (v0 + 1) k h'

theorem appendMeans_getD (e : Est) (cs : List ℕ) (A : Mat) (v : ℕ) (h : v < A.length) :
    (appendMeans e cs A).getD v []
      = (A.getD v []) ++ cs.map (fun c => subjMean e v c) := by
  simpa using appendMeansAux_getD e cs 0 A v h

theorem addSingle_getD (e : Est) (c : ℕ) (A : Mat) (v : ℕ) (h : v < A.length) :
    (addSingle e c A).getD v []
      = (A.getD v []).map (fun x => x * (1 - subjMean e v c)) ++ [subjMean e v c] := by
  simpa using addSingleAux_getD e c 0 A v h

theorem mergeRun_cons (e : Est) (p : ℕ × ℕ) (ps : List (ℕ × ℕ)) (A : Mat) :
    mergeRun e (p :: ps) A = mergeRun e ps (mergeApply e p.1 p.2 A) := rfl

theorem mergeRun_rowLength (e : Est) (ps : List (ℕ × ℕ)) (A : Mat) (v : ℕ) :
    ((mergeRun e ps A).getD v []).length = ((A.getD v []).length) := by
  induction ps generalizing A with
  | nil => rfl
  | cons p ps ih => rw [mergeRun, List.foldl_cons, ← mergeRun, ih, mergeApply_rowLength]

theorem entry_mergeRun_notin (e : Est) (ps : List (ℕ × ℕ)) (A : Mat) (v j : ℕ)
    (h : ∀ p ∈ ps, p.1 ≠ j) :
    entry (mergeRun e ps A) v j = entry A v j := by
  induction ps generalizing A with
  | nil => rfl
  | cons p ps ih =>
      rw [mergeRun, List.foldl_cons, ← mergeRun, ih _ fun q hq => h q (List.mem_cons_of_mem p hq),
        entry_mergeApply_ne _ _ _ _ _ _ (h p (List.mem_cons_self p ps))]

theorem mergeLabelsAux_eq_mergeRun (fs : List ℤ) (e : Est) (mi : Option (List ℤ))
    (l : ℕ) (labs : List ℤ) (A : Mat) (ps : List (ℕ × ℕ))
    (hps : resolvedPairs fs e mi l labs = .ok ps) :
    mergeLabelsAux fs e mi l labs A = .ok (mergeRun e ps A) := by
  induction labs generalizing l A ps with
  | nil =>
      simp only [resolvedPairs] at hps
      cases hps
      rfl
  | cons lab rest ih =>
      rw [resolvedPairs] at hps
      rw [mergeLabelsAux]
      cases h1 : resolveIdx2 mi l with
      | error er => rw [h1] at hps; exact absurd hps (by simp)
      | ok i2 =>
          simp only [h1] at hps ⊢
          cases h2 : resolveLabel fs lab with
          | error er => rw [h2] at hps; exact absurd hps (by simp)
          | ok idx =>
              simp only [h2] at hps ⊢
              cases h3 : npIndexE (numEstClasses e) i2 with
              | error er => rw [h3] at hps; exact absurd hps (by simp)
              | ok c =>
                  simp only [h3] at hps ⊢
                  cases h4 : resolvedPairs fs e mi (l + 1) rest with
                  | error er => rw [h4] at hps; exact absurd hps (by simp)
                  | ok ps' =>
                      simp only [h4] at hps
                      cases hps
                      rw [ih (l + 1) (mergeApply e idx c A) ps' h4]
                      rfl

theorem entry_mergeRun_nodup (e : Est) (ps : List (ℕ × ℕ)) (A : Mat)
    (hnd : (ps.map Prod.fst).Nodup) (idx c : ℕ) (hmem : (idx, c) ∈ ps)
    (v : ℕ) (hidx : idx < (A.getD v []).length) :
    entry (mergeRun e ps A) v idx = mergeFormula e v c (entry A v idx) := by
  induction ps generalizing A with
  | nil => cases hmem
  | cons p ps ih =>
      rw [List.map_cons, List.nodup_cons] at hnd
      rw [mergeRun_cons]
      rcases List.mem_cons.mp hmem with heq | hmem'
      · rw [← heq] at hnd ⊢
        have hnotin : ∀ q ∈ ps, q.1 ≠ idx := by
          intro q hq h
          apply hnd.1
          have hm : q.1 ∈ ps.map Prod.fst := List.mem_map_of_mem Prod.fst hq
          rwa [h] at hm
        rw [entry_mergeRun_notin e ps _ v idx hnotin,
          entry_mergeApply_self e idx c A v hidx]
      · have hne : p.1 ≠ idx := by
          intro h
          apply hnd.1
          have hm : (idx, c).1 ∈ ps.map Prod.fst := List.mem_map_of_mem Prod.fst hmem'
          rw [h]
          exact hm
        have hlen : idx < ((mergeApply e p.1 p.2 A).getD v []).length := by
          rw [mergeApply_rowLength]; exact hidx
        rw [ih (mergeApply e p.1 p.2 A) hnd.2 hmem' hlen,
          entry_mergeApply_ne _ _ _ _ _ _ hne]

theorem pyFind_eq_none {α : Type} (p : α → Bool) (l : List α)
    (h : ∀ x ∈ l, p x = false) : pyFind p l = none := by
  induction l with
  | nil => rfl
  | cons x xs ih =>
      rw [pyFind, if_neg (by simp [h x (List.mem_cons_self x xs)]),
        ih fun y hy => h y (List.mem_cons_of_mem x hy)]
      rfl

theorem resolveLabel_absent (fs : List ℤ) (lab : ℤ) (h : lab ∉ fs) :
    resolveLabel fs lab = .error .UnknownLabelError := by
  rw [resolveLabel, pyFind_eq_none _ _ fun x hx => by
    simp only [beq_eq_false_iff_ne]
    exact fun he => h (he ▸ hx)]

theorem getD_mem {A : Mat} {v : ℕ} (hv : v < A.length) : A.getD v [] ∈ A := by
  rw [List.getD_eq_getElem A [] hv]
  exact List.getElem_mem hv

theorem pyFind_ne_none {α : Type} [BEq α] [LawfulBEq α] (x : α) (l : List α)
    (h : x ∈ l) : pyFind (· == x) l ≠ none := by
  induction l with
  | nil => cases h
  | cons y ys ih =>
      rw [pyFind]
      by_cases hy : (y == x) = true
      · rw [if_pos hy]
        simp
      · rw [if_neg hy]
        have hx : x ∈ ys := by
          rcases List.mem_cons.mp h with rfl | hmem
          · exact absurd (beq_self_eq_true x) hy
          · exact hmem
        intro hcon
        exact ih hx (by simpa using hcon)

theorem resolveLabel_present (fs : List ℤ) (lab : ℤ) (h : lab ∈ fs) :
    ∃ idx, resolveLabel fs lab = .ok idx := by
  rw [resolveLabel]
  cases hp : pyFind (· == lab) fs with
  | none => exact absurd hp (pyFind_ne_none lab fs h)
  | some idx => exact ⟨idx, rfl⟩

theorem resolveName_absent (names : List String) (nm : String) (h : nm ∉ names) :
    resolveName names nm = .error .UnknownLabelError := by
  rw [resolveName, pyFind_eq_none _ _ fun x hx => by
    simp only [beq_eq_false_iff_ne]
    exact fun he => h (he ▸ hx)]

theorem resolveName_present (names : List String) (nm : String) (h : nm ∈ names) :
    ∃ idx, resolveName names nm = .ok idx := by
  rw [resolveName]
  cases hp : pyFind (· == nm) names with
  | none => exact absurd hp (pyFind_ne_none nm names h)
  | some idx => exact ⟨idx, rfl⟩

theorem mergeLabelsAux_absent (fs : List ℤ) (e : Est) (l : ℕ) (pre : List ℤ)
    (lab : ℤ) (rest : List ℤ) (A : Mat) (habs : lab ∉ fs)
    (hpre : ∀ x ∈ pre, x ∈ fs) (hn : l + pre.length < numEstClasses e) :
    mergeLabelsAux fs e none l (pre ++ lab :: rest) A = .error .UnknownLabelError := by
  revert hpre hn
  induction pre generalizing l A with
  | nil =>
      intro _ _
      rw [List.nil_append]
      simp only [mergeLabelsAux]
      simp [resolveIdx2, resolveLabel_absent fs lab habs]
  | cons x pre ih =>
      intro hpre hn
      rw [List.cons_append]
      simp only [mergeLabelsAux]
      obtain ⟨idx, hidx⟩ := resolveLabel_present fs x (hpre x (List.mem_cons_self x pre))
      have hnp : npIndexE (numEstClasses e) ((l : ℤ) + 1) = .ok ((l : ℤ) + 1).toNat := by
        rw [npIndexE, npIndex,
          if_pos ⟨by omega, by simp only [List.length_cons] at hn; omega⟩]
      simp only [resolveIdx2, hidx, hnp]
      exact ih (l + 1) _ (fun y hy => hpre y (List.mem_cons_of_mem x hy))
        (by simp only [List.length_cons] at hn; omega)

theorem mergeNamesAux_absent (names : List String) (e : Est) (l0 : ℕ)
    (npre : List String) (nm : String) (nrest : List String) (A : Mat)
    (habs : nm ∉ names) (hpre : ∀ x ∈ npre, x ∈ names)
    (hn : l0 + 1 < numEstClasses e) :
    mergeNamesAux names e none (some l0) (npre ++ nm :: nrest) A
      = .error .UnknownLabelError := by
  revert hpre
  induction npre generalizing A with
  | nil =>
      intro _
      rw [List.nil_append]
      simp only [mergeNamesAux]
      simp [resolveIdx2, resolveName_absent names nm habs]
  | cons x npre ih =>
      intro hpre
      rw [List.cons_append]
      simp only [mergeNamesAux]
      obtain ⟨idx, hidx⟩ := resolveName_present names x (hpre x (List.mem_cons_self x npre))
      have hnp : npIndexE (numEstClasses e) ((l0 : ℤ) + 1) = .ok ((l0 : ℤ) + 1).toNat := by
        rw [npIndexE, npIndex, if_pos ⟨by omega, by omega⟩]
      simp only [resolveIdx2, hidx, hnp]
      exact ih _ fun y hy => hpre y (List.mem_cons_of_mem x hy)

/-! ### Claims -/

/-- C1: merging one target column with estimated statistics sets each vertex
entry of that column to
`(alphas[v, idx] * subjectCount + sum_over_subjects(estimated[v, c, :]))
 / (subjectCount + numNewSubjects)`, where `subjectCount` is the fixed
base-atlas constant 20 (`samseg_subjects`) and `numNewSubjects` is the size
of the subject axis of the estimated array. -/
theorem C1_merge_column_formula (e : Est) (A : Mat) (idx c v : ℕ)
    (hidx : idx < (A.getD v []).length) :
    samseg_subjects = 20 ∧
    entry (mergeApply e idx c A) v idx
      = (entry A v idx * 20 + subjSum e v c) / (20 + (numSubjects e : ℚ)) := by
  refine ⟨rfl, ?_⟩
  rw [entry_mergeApply_self e idx c A v hidx, mergeFormula, samseg_subjects]

/-- C1 witness: old value 1/2, 5 new subjects each contributing `x = 1/3`
at the vertex; the merged entry equals `(old·20 + 5x)/25 = 7/15`. -/
theorem C1_merge_column_formula_witness :
    (0 < (([[(1:ℚ)/2]] : Mat).getD 0 []).length) ∧
    (samseg_subjects = 20 ∧
      entry (mergeApply [[[0,0,0,0,0], [1/3,1/3,1/3,1/3,1/3]]] 0 1 [[(1:ℚ)/2]]) 0 0
        = (entry [[(1:ℚ)/2]] 0 0 * 20
            + subjSum [[[0,0,0,0,0], [1/3,1/3,1/3,1/3,1/3]]] 0 1)
          / (20 + (numSubjects [[[0,0,0,0,0], [1/3,1/3,1/3,1/3,1/3]]] : ℚ))) ∧
    entry (mergeApply [[[0,0,0,0,0], [1/3,1/3,1/3,1/3,1/3]]] 0 1 [[(1:ℚ)/2]]) 0 0
      = ((1:ℚ)/2 * 20 + 5 * (1/3)) / 25 :=
  ⟨by norm_num, C1_merge_column_formula _ _ 0 1 0 (by norm_num),
   by norm_num [entry, mergeApply, mergeApplyAux, mergeFormula, subjSum, numSubjects,
     samseg_subjects]⟩

/-- C2: a single-class add appends the per-vertex subject mean of the source
slice as the new last column, scales every pre-existing column by
`(1 - newColumn)` elementwise with no renormalization pass, and rows that
summed to 1 with a new column in `[0, 1]` again sum to exactly 1. -/
theorem C2_single_class_add (e : Est) (A : Mat) (i : ℤ) (c : ℕ)
    (hres : npIndex (numEstClasses e) i = some c) (_hns : 0 < numSubjects e)
    (v : ℕ) (hv : v < A.length) :
    addPhase e (some [i]) A = .ok (addSingle e c A) ∧
    (addSingle e c A).getD v []
      = (A.getD v []).map (fun x => x * (1 - subjMean e v c)) ++ [subjMean e v c] ∧
    ((A.getD v []).sum = 1 → 0 ≤ subjMean e v c → subjMean e v c ≤ 1 →
      ((addSingle e c A).getD v []).sum = 1) := by
  refine ⟨?_, addSingle_getD e c A v hv, ?_⟩
  · simp [addPhase, resolveAll, hres]
  · intro h1 _ _
    rw [addSingle_getD e c A v hv, List.sum_append, sum_map_mul, h1]
    simp

/-- C2 witness: 2 estimated classes, 1 subject, new column value 1/4 on a row
summing to 1. -/
theorem C2_single_class_add_witness :
    npIndex (numEstClasses [[[(1:ℚ)/2], [1/4]]]) 1 = some 1 ∧
    0 < numSubjects [[[(1:ℚ)/2], [1/4]]] ∧
    0 < ([[(1:ℚ)/2, 1/2]] : Mat).length ∧
    (addPhase [[[(1:ℚ)/2], [1/4]]] (some [1]) [[(1:ℚ)/2, 1/2]]
        = .ok (addSingle [[[(1:ℚ)/2], [1/4]]] 1 [[(1:ℚ)/2, 1/2]]) ∧
      (addSingle [[[(1:ℚ)/2], [1/4]]] 1 [[(1:ℚ)/2, 1/2]]).getD 0 []
        = (([[(1:ℚ)/2, 1/2]] : Mat).getD 0 []).map
              (fun x => x * (1 - subjMean [[[(1:ℚ)/2], [1/4]]] 0 1))
            ++ [subjMean [[[(1:ℚ)/2], [1/4]]] 0 1] ∧
      ((([[(1:ℚ)/2, 1/2]] : Mat).getD 0 []).sum = 1 →
        0 ≤ subjMean [[[(1:ℚ)/2], [1/4]]] 0 1 →
        subjMean [[[(1:ℚ)/2], [1/4]]] 0 1 ≤ 1 →
        ((addSingle [[[(1:ℚ)/2], [1/4]]] 1 [[(1:ℚ)/2, 1/2]]).getD 0 []).sum = 1)) :=
  ⟨by norm_num [npIndex, numEstClasses], by norm_num [numSubjects], by norm_num,
   C2_single_class_add _ _ 1 1 (by norm_num [npIndex, numEstClasses])
     (by norm_num [numSubjects]) 0 (by norm_num)⟩

/-- C4 counterexample: the all-zero row is non-negative, yet after the
Renormalizer its row sum is 0, not within any tolerance of 1 — the claim
fails as stated for matrices with a zero-sum row. -/
theorem C4_counterexample :
    (∀ r ∈ ([[(0:ℚ)]] : Mat), ∀ x ∈ r, 0 ≤ x) ∧
    renormalize [[(0:ℚ)]] = [[0]] ∧
    ¬ |((renormalize [[(0:ℚ)]]).getD 0 []).sum - 1| ≤ 1 / 2 := by
  refine ⟨by simp, ?_, ?_⟩
  · norm_num [renormalize, eps]
  · norm_num [renormalize, eps, abs_le]

/-- C4 (amended): after the Renormalizer runs on a matrix with non-negative
entries, each output row is the input row divided by (its sum plus `eps`),
all output entries are ≥ 0, and every row whose input sum `S` is positive
has output sum `S/(S+eps)`, which lies within `eps/S` below 1 (zero-sum rows
renormalize to zero rows instead). -/
theorem C4_renormalize_simplex (A : Mat) (r : List ℚ) (hr : r ∈ A)
    (hnn : ∀ x ∈ r, 0 ≤ x) :
    (r.map fun x => x / (r.sum + eps)) ∈ renormalize A ∧
    (∀ y ∈ r.map fun x => x / (r.sum + eps), 0 ≤ y) ∧
    (r.map fun x => x / (r.sum + eps)).sum = r.sum / (r.sum + eps) ∧
    (0 < r.sum →
      1 - eps / r.sum < r.sum / (r.sum + eps) ∧ r.sum / (r.sum + eps) < 1) := by
  have hS : 0 ≤ r.sum := List.sum_nonneg hnn
  refine ⟨List.mem_map_of_mem _ hr, ?_, sum_map_div r _,
    fun h => ⟨renorm_sum_gt h, renorm_sum_lt_one h⟩⟩
  intro y hy
  rcases List.mem_map.mp hy with ⟨x, hx, rfl⟩
  exact div_nonneg (hnn x hx) (eps_add_pos hS).le

/-- C4 witness at the row `[1/2, 1/2]` of a concrete matrix. -/
theorem C4_renormalize_simplex_witness :
    ([(1:ℚ)/2, 1/2] ∈ ([[(1:ℚ)/2, 1/2]] : Mat)) ∧
    (∀ x ∈ [(1:ℚ)/2, 1/2], 0 ≤ x) ∧
    (([(1:ℚ)/2, 1/2].map fun x => x / ([(1:ℚ)/2, 1/2].sum + eps)) ∈
        renormalize [[(1:ℚ)/2, 1/2]] ∧
      (∀ y ∈ [(1:ℚ)/2, 1/2].map fun x => x / ([(1:ℚ)/2, 1/2].sum + eps), 0 ≤ y) ∧
      ([(1:ℚ)/2, 1/2].map fun x => x / ([(1:ℚ)/2, 1/2].sum + eps)).sum
        = [(1:ℚ)/2, 1/2].sum / ([(1:ℚ)/2, 1/2].sum + eps) ∧
      (0 < [(1:ℚ)/2, 1/2].sum →
        1 - eps / [(1:ℚ)/2, 1/2].sum
            < [(1:ℚ)/2, 1/2].sum / ([(1:ℚ)/2, 1/2].sum + eps) ∧
          [(1:ℚ)/2, 1/2].sum / ([(1:ℚ)/2, 1/2].sum + eps) < 1)) :=
  ⟨by simp, by norm_num,
   C4_renormalize_simplex _ _ (by simp) (by norm_num)⟩

/-- C8: on an already row-normalized matrix (each row sums to 1) the
Renormalizer only rescales each entry by `1/(1+eps)`, and applying it twice
rescales by `1/(1+eps+eps²)`; both are the identity up to a relative error
of at most `eps` per entry, so renormalize∘renormalize agrees with
renormalize within that floating-point-rounding tolerance. -/
theorem C8_renormalize_idempotent (A : Mat) (h : ∀ r ∈ A, r.sum = 1)
    (v j : ℕ) (hv : v < A.length) :
    entry (renormalize A) v j = entry A v j / (1 + eps) ∧
    entry (renormalize (renormalize A)) v j = entry A v j / (1 + eps + eps ^ 2) ∧
    |entry (renormalize A) v j - entry A v j| ≤ eps * |entry A v j| ∧
    |entry (renormalize (renormalize A)) v j - entry (renormalize A) v j|
      ≤ eps * |entry A v j| := by
  have hsum : (A.getD v []).sum = 1 := h _ (getD_mem hv)
  have h1pos : (0:ℚ) < 1 + eps := by have := eps_pos; linarith
  have h2pos : (0:ℚ) < 1 + eps + eps ^ 2 := by nlinarith [eps_pos]
  have hrow1 : (renormalize A).getD v [] = (A.getD v []).map (fun x => x / (1 + eps)) := by
    rw [renormalize_row, hsum]
  have hsum1 : ((renormalize A).getD v []).sum = 1 / (1 + eps) := by
    rw [hrow1, sum_map_div, hsum]
  have e1 : entry (renormalize A) v j = entry A v j / (1 + eps) := by
    rw [entry, hrow1, getD_map_zero (fun x => x / (1 + eps)) (zero_div _) _ j, entry]
  have e2 : entry (renormalize (renormalize A)) v j
      = entry A v j / (1 + eps + eps ^ 2) := by
    rw [entry, renormalize_row, hsum1, hrow1,
      getD_map_zero (fun x => x / (1 / (1 + eps) + eps)) (zero_div _) _ j,
      getD_map_zero (fun x => x / (1 + eps)) (zero_div _) _ j, entry, div_div]
    congr 1
    field_simp
    ring
  refine ⟨e1, e2, ?_, ?_⟩
  · rw [e1]
    have heq : entry A v j / (1 + eps) - entry A v j
        = -(entry A v j * eps) / (1 + eps) := by
      field_simp
      ring
    rw [heq, abs_div, abs_neg, abs_mul, abs_of_pos h1pos, abs_of_pos eps_pos]
    calc |entry A v j| * eps / (1 + eps)
        ≤ |entry A v j| * eps :=
          div_le_self (mul_nonneg (abs_nonneg _) eps_pos.le) (by have := eps_pos; linarith)
      _ = eps * |entry A v j| := mul_comm _ _
  · rw [e1, e2]
    have heq : entry A v j / (1 + eps + eps ^ 2) - entry A v j / (1 + eps)
        = -(entry A v j * eps ^ 2) / ((1 + eps + eps ^ 2) * (1 + eps)) := by
      field_simp
      ring
    rw [heq, abs_div, abs_neg, abs_mul, abs_of_pos (mul_pos h2pos h1pos),
      abs_of_pos (pow_pos eps_pos 2)]
    have hD : (1:ℚ) ≤ (1 + eps + eps ^ 2) * (1 + eps) := by nlinarith [eps_pos]
    calc |entry A v j| * eps ^ 2 / ((1 + eps + eps ^ 2) * (1 + eps))
        ≤ |entry A v j| * eps ^ 2 :=
          div_le_self (mul_nonneg (abs_nonneg _) (pow_nonneg eps_pos.le 2)) hD
      _ ≤ |entry A v j| * eps := by
          have : eps ^ 2 ≤ eps := by nlinarith [eps_pos, eps_le_one]
          exact mul_le_mul_of_nonneg_left this (abs_nonneg _)
      _ = eps * |entry A v j| := mul_comm _ _

/-- C3 counterexample: a multi-class add on an all-zero row with all-zero
estimated statistics keeps the pre-renormalize row sum at 0 (≠ 1, satisfying
the claim's premise), yet the post-renormalize row sum is 0, not within any
tolerance of 1 — the sums-to-1 clause fails as stated for zero-sum rows. -/
theorem C3_counterexample :
    addPhase [[[(0:ℚ)], [0], [0]]] (some [1, 2]) [[(0:ℚ)]] = .ok [[0, 0, 0]] ∧
    ((appendMeans [[[(0:ℚ)], [0], [0]]] [1, 2] [[(0:ℚ)]]).getD 0 []).sum ≠ 1 ∧
    ¬ |((renormalize (appendMeans [[[(0:ℚ)], [0], [0]]] [1, 2] [[(0:ℚ)]])).getD 0 []).sum
        - 1| ≤ 1 / 2 := by
  refine ⟨?_, ?_, ?_⟩ <;>
    norm_num [addPhase, resolveAll, npIndex, numEstClasses, renormalize, appendMeans,
      appendMeansAux, subjMean, subjSum, numSubjects, eps, abs_le, Int.toNat]

/-- C3 (amended): a multi-class add (more than one source index) appends to
each row the per-vertex subject means of the source slices, leaves the
pre-existing columns unscaled, and renormalizes every whole row by dividing
by its row sum plus `eps`; every row whose pre-renormalize sum `S` is
positive then has post-renormalize sum `S/(S+eps)`, within `eps/S` below 1
even when `S ≠ 1` (zero-sum rows renormalize to zero rows instead). -/
theorem C3_multi_class_add (e : Est) (A : Mat) (is : List ℤ) (cs : List ℕ)
    (hlen : 1 < is.length) (hres : resolveAll (numEstClasses e) is = some cs)
    (v : ℕ) (hv : v < A.length) :
    addPhase e (some is) A = .ok (renormalize (appendMeans e cs A)) ∧
    (appendMeans e cs A).getD v []
      = (A.getD v []) ++ cs.map (fun c => subjMean e v c) ∧
    (0 < ((appendMeans e cs A).getD v []).sum →
      ((renormalize (appendMeans e cs A)).getD v []).sum
        = ((appendMeans e cs A).getD v []).sum
            / (((appendMeans e cs A).getD v []).sum + eps) ∧
      1 - eps / ((appendMeans e cs A).getD v []).sum
        < ((renormalize (appendMeans e cs A)).getD v []).sum ∧
      ((renormalize (appendMeans e cs A)).getD v []).sum < 1) := by
  have hone : ¬ (is.length = 1) := by omega
  refine ⟨by simp [addPhase, hres, hone], appendMeans_getD e cs A v hv, ?_⟩
  intro hpos
  have hrow : (renormalize (appendMeans e cs A)).getD v []
      = ((appendMeans e cs A).getD v []).map
          (fun x => x / (((appendMeans e cs A).getD v []).sum + eps)) :=
    renormalize_row _ v
  have hsum : ((renormalize (appendMeans e cs A)).getD v []).sum
      = ((appendMeans e cs A).getD v []).sum
          / (((appendMeans e cs A).getD v []).sum + eps) := by
    rw [hrow, sum_map_div]
  exact ⟨hsum, by rw [hsum]; exact renorm_sum_gt hpos,
    by rw [hsum]; exact renorm_sum_lt_one hpos⟩

/-- C3 witness: 2 added columns on a row whose pre-renormalize sum is 23/4. -/
theorem C3_multi_class_add_witness :
    1 < ([1, 2] : List ℤ).length ∧
    resolveAll (numEstClasses [[[(1:ℚ)], [2], [3]]]) [1, 2] = some [1, 2] ∧
    0 < ([[(1:ℚ)/2, 1/4]] : Mat).length ∧
    (addPhase [[[(1:ℚ)], [2], [3]]] (some [1, 2]) [[(1:ℚ)/2, 1/4]]
        = .ok (renormalize (appendMeans [[[(1:ℚ)], [2], [3]]] [1, 2] [[(1:ℚ)/2, 1/4]])) ∧
      (appendMeans [[[(1:ℚ)], [2], [3]]] [1, 2] [[(1:ℚ)/2, 1/4]]).getD 0 []
        = (([[(1:ℚ)/2, 1/4]] : Mat).getD 0 [])
            ++ [1, 2].map (fun c => subjMean [[[(1:ℚ)], [2], [3]]] 0 c) ∧
      (0 < ((appendMeans [[[(1:ℚ)], [2], [3]]] [1, 2] [[(1:ℚ)/2, 1/4]]).getD 0 []).sum →
        ((renormalize (appendMeans [[[(1:ℚ)], [2], [3]]] [1, 2] [[(1:ℚ)/2, 1/4]])).getD 0
            []).sum
          = ((appendMeans [[[(1:ℚ)], [2], [3]]] [1, 2] [[(1:ℚ)/2, 1/4]]).getD 0 []).sum
              / (((appendMeans [[[(1:ℚ)], [2], [3]]] [1, 2] [[(1:ℚ)/2, 1/4]]).getD 0
                  []).sum + eps) ∧
        1 - eps / ((appendMeans [[[(1:ℚ)], [2], [3]]] [1, 2] [[(1:ℚ)/2, 1/4]]).getD 0
              []).sum
          < ((renormalize (appendMeans [[[(1:ℚ)], [2], [3]]] [1, 2]
                [[(1:ℚ)/2, 1/4]])).getD 0 []).sum ∧
        ((renormalize (appendMeans [[[(1:ℚ)], [2], [3]]] [1, 2] [[(1:ℚ)/2, 1/4]])).getD 0
            []).sum < 1)) :=
  ⟨by norm_num, by norm_num [resolveAll, npIndex, numEstClasses, Int.toNat], by norm_num,
   C3_multi_class_add _ _ [1, 2] [1, 2] (by norm_num)
     (by norm_num [resolveAll, npIndex, numEstClasses, Int.toNat]) 0 (by norm_num)⟩

/-- C5 (code-bug evaluation): with `--merge-labels 2 --merge-names B C` and
no explicit indexes, the names loop reuses the stale loop variable from the
labels loop, so both names consume estimated class 1: the column for name
"C" becomes `(1/2·20 + 1)/21 = 11/21`, not the claimed ordinal-position
source `mergeFormula … 3 (1/2) = 13/21`; and a names-only invocation even
fails on the undefined loop variable (Python `NameError`). -/
theorem C5_stale_loop_variable :
    mergeLoops [0, 2, 5, 7] ["BG", "L2", "B", "C"] [[[(0:ℚ)], [1], [2], [3]]]
        (some [2]) none (some ["B", "C"]) [[1/8, 1/8, 1/4, 1/2]]
      = .ok [[1/8, 1/6, 2/7, 11/21]] ∧
    (11/21 : ℚ) ≠ mergeFormula [[[(0:ℚ)], [1], [2], [3]]] 0 3 (1/2) ∧
    mergeLoops [0, 2, 5, 7] ["BG", "L2", "B", "C"] [[[(0:ℚ)], [1], [2], [3]]]
        none none (some ["B"]) [[1/8, 1/8, 1/4, 1/2]]
      = .error .NameError := by
  refine ⟨?_, ?_, ?_⟩ <;>
    simp [mergeLoops, mergeLabelsAux, mergeNamesAux, staleL, resolveIdx2,
      resolveLabel, resolveName, pyFind, npIndexE, npIndex, numEstClasses,
      mergeApply, mergeApplyAux, mergeFormula, subjSum, numSubjects,
      samseg_subjects, Int.toNat] <;>
    norm_num

/-- C6 counterexample: merging the same label twice in one call compounds:
with original entry 1, one subject, and estimated sums 21 then 0, the code
produces 820/441 (the second merge reads the already-merged column), while
reading the original pre-merge alphas would give `mergeFormula … = 20/21`. -/
theorem C6_counterexample :
    mergeLabelsAux [0, 5] [[[(0:ℚ)], [21], [0]]] none 0 [5, 5] [[(0:ℚ), 1]]
      = .ok [[0, 820/441]] ∧
    (820/441 : ℚ)
      ≠ mergeFormula [[[(0:ℚ)], [21], [0]]] 0 2 (entry [[(0:ℚ), 1]] 0 1) := by
  constructor <;>
    norm_num [mergeLabelsAux, resolveIdx2, resolveLabel, pyFind, npIndexE, npIndex,
      numEstClasses, mergeApply, mergeApplyAux, mergeFormula, subjSum, numSubjects,
      samseg_subjects, entry, Int.toNat]

/-- C6 (amended): when the merge targets of one call resolve to pairwise
distinct columns, the merges are independent: each merged column is computed
from the original pre-merge alphas entry.  (When two targets resolve to the
same column the second merge reads the already-merged value instead.) -/
theorem C6_independent_merges_distinct (fs : List ℤ) (e : Est)
    (mi : Option (List ℤ)) (labs : List ℤ) (A : Mat) (ps : List (ℕ × ℕ))
    (hps : resolvedPairs fs e mi 0 labs = .ok ps)
    (hnd : (ps.map Prod.fst).Nodup)
    (idx c : ℕ) (hmem : (idx, c) ∈ ps)
    (v : ℕ) (hidx : idx < (A.getD v []).length) :
    mergeLabelsAux fs e mi 0 labs A = .ok (mergeRun e ps A) ∧
    entry (mergeRun e ps A) v idx = mergeFormula e v c (entry A v idx) :=
  ⟨mergeLabelsAux_eq_mergeRun fs e mi 0 labs A ps hps,
   entry_mergeRun_nodup e ps A hnd idx c hmem v hidx⟩

/-- C6 witness: two labels resolving to the distinct columns 1 and 0. -/
theorem C6_independent_merges_distinct_witness :
    resolvedPairs [0, 5] [[[(5:ℚ)], [21], [7]]] none 0 [5, 0] = .ok [(1, 1), (0, 2)] ∧
    (([(1, 1), (0, 2)] : List (ℕ × ℕ)).map Prod.fst).Nodup ∧
    ((1, 1) : ℕ × ℕ) ∈ ([(1, 1), (0, 2)] : List (ℕ × ℕ)) ∧
    1 < (([[(1:ℚ)/2, 1/2]] : Mat).getD 0 []).length ∧
    (mergeLabelsAux [0, 5] [[[(5:ℚ)], [21], [7]]] none 0 [5, 0] [[(1:ℚ)/2, 1/2]]
        = .ok (mergeRun [[[(5:ℚ)], [21], [7]]] [(1, 1), (0, 2)] [[(1:ℚ)/2, 1/2]]) ∧
      entry (mergeRun [[[(5:ℚ)], [21], [7]]] [(1, 1), (0, 2)] [[(1:ℚ)/2, 1/2]]) 0 1
        = mergeFormula [[[(5:ℚ)], [21], [7]]] 0 1 (entry [[(1:ℚ)/2, 1/2]] 0 1)) :=
  ⟨by norm_num [resolvedPairs, resolveIdx2, resolveLabel, pyFind, npIndexE, npIndex,
      numEstClasses, Int.toNat],
   by simp, by simp, by simp,
   C6_independent_merges_distinct [0, 5] [[[(5:ℚ)], [21], [7]]] none [5, 0]
     [[(1:ℚ)/2, 1/2]] [(1, 1), (0, 2)]
     (by norm_num [resolvedPairs, resolveIdx2, resolveLabel, pyFind, npIndexE, npIndex,
        numEstClasses, Int.toNat])
     (by simp) 1 1 (by simp) 0 (by simp)⟩

/-- C7: merge-then-add differs from add-then-merge on a concrete input with
1 vertex, 3 base classes and 1 added class: the pipeline's fixed order
(merge, renormalize, add) and the reversed order produce different alphas. -/
theorem C7_merge_add_not_commutative :
    processLevel [0, 7, 8] [] [[[(0:ℚ)], [1/2], [1/3]]] (some [7]) none none
        (some [2]) [[1/4, 1/4, 1/2]]
      ≠ processLevelAddFirst [0, 7, 8] [] [[[(0:ℚ)], [1/2], [1/3]]] (some [7]) none none
        (some [2]) [[1/4, 1/4, 1/2]] := by
  norm_num [processLevel, processLevelAddFirst, mergePhase, mergeLoops, mergeLabelsAux,
    resolveIdx2, resolveLabel, pyFind, npIndexE, npIndex, numEstClasses, mergeApply,
    mergeApplyAux, mergeFormula, subjSum, numSubjects, samseg_subjects, renormalize,
    addPhase, resolveAll, addSingle, addSingleAux, subjMean, eps, Int.toNat]

/-- C9: a merge target identifier absent from the label table — a numeric
label (`list.index` on the labels) or a symbolic name (`list.index` on the
names, reached in a mixed invocation whose labels loop ran) — makes the
resolution fail with `UnknownLabelError`, and the level aborts with that
error, so no updated alphas matrix is emitted for the level.  Conjuncts:
the two resolution contracts; a level with the absent label at any position
of `--merge-labels` (after a resolvable prefix whose default source indices
are in range); a level whose labels all merged and whose `--merge-names`
holds the absent name after a resolvable prefix of names. -/
theorem C9_unknown_label_aborts (fs : List ℤ) (names : List String) (e : Est)
    (lab : ℤ) (nm : String) (pre rest : List ℤ) (npre nrest : List String)
    (labs : List ℤ) (B : Mat) (mergeNames : Option (List String))
    (addIndexes addIndexes' : Option (List ℤ)) (A : Mat)
    (hlab : lab ∉ fs) (hnm : nm ∉ names)
    (hpre : ∀ x ∈ pre, x ∈ fs) (hn : pre.length < numEstClasses e)
    (hlabs : mergeLabelsAux fs e none 0 labs A = .ok B) (hne : labs ≠ [])
    (hnpre : ∀ x ∈ npre, x ∈ names) (hn2 : labs.length < numEstClasses e) :
    resolveLabel fs lab = .error .UnknownLabelError ∧
    resolveName names nm = .error .UnknownLabelError ∧
    processLevel fs names e (some (pre ++ lab :: rest)) none mergeNames addIndexes A
      = .error .UnknownLabelError ∧
    processLevel fs names e (some labs) none (some (npre ++ nm :: nrest)) addIndexes' A
      = .error .UnknownLabelError := by
  have hl := mergeLabelsAux_absent fs e 0 pre lab rest A hlab hpre (by simpa using hn)
  have hstale : staleL (some labs) = some (labs.length - 1) := by
    rw [staleL, if_neg (by simp [hne])]
  have hlen : 1 ≤ labs.length := List.length_pos.mpr hne
  have hnm2 := mergeNamesAux_absent names e (labs.length - 1) npre nm nrest B hnm hnpre
    (by omega)
  refine ⟨resolveLabel_absent fs lab hlab, resolveName_absent names nm hnm, ?_, ?_⟩
  · simp [processLevel, mergePhase, mergeLoops, hl]
  · simp [processLevel, mergePhase, mergeLoops, hlabs, hstale, hnm2]

/-- C9 witness: label 7 and name "X" are absent from the table with labels
`[0, 5]` and names `["BG", "L2"]`; both invocations abort the level. -/
theorem C9_unknown_label_aborts_witness :
    (7 : ℤ) ∉ ([0, 5] : List ℤ) ∧
    "X" ∉ (["BG", "L2"] : List String) ∧
    (∀ x ∈ ([0] : List ℤ), x ∈ ([0, 5] : List ℤ)) ∧
    ([0] : List ℤ).length < numEstClasses [[[(1:ℚ)], [2], [3]]] ∧
    mergeLabelsAux [0, 5] [[[(1:ℚ)], [2], [3]]] none 0 [5] [[(1:ℚ), 0]]
      = .ok [[1, 2/21]] ∧
    ([5] : List ℤ) ≠ [] ∧
    (∀ x ∈ (["L2"] : List String), x ∈ (["BG", "L2"] : List String)) ∧
    ([5] : List ℤ).length < numEstClasses [[[(1:ℚ)], [2], [3]]] ∧
    (resolveLabel [0, 5] 7 = .error .UnknownLabelError ∧
      resolveName ["BG", "L2"] "X" = .error .UnknownLabelError ∧
      processLevel [0, 5] ["BG", "L2"] [[[(1:ℚ)], [2], [3]]] (some ([0] ++ 7 :: []))
          none none none [[(1:ℚ), 0]]
        = .error .UnknownLabelError ∧
      processLevel [0, 5] ["BG", "L2"] [[[(1:ℚ)], [2], [3]]] (some [5]) none
          (some (["L2"] ++ "X" :: [])) none [[(1:ℚ), 0]]
        = .error .UnknownLabelError) :=
  ⟨by norm_num, by simp, by simp, by norm_num [numEstClasses],
   by norm_num [mergeLabelsAux, resolveIdx2, resolveLabel, pyFind, npIndexE, npIndex,
     numEstClasses, mergeApply, mergeApplyAux, mergeFormula, subjSum, numSubjects,
     samseg_subjects, Int.toNat],
   by simp, by simp, by norm_num [numEstClasses],
   C9_unknown_label_aborts [0, 5] ["BG", "L2"] [[[(1:ℚ)], [2], [3]]] 7 "X" [0] [] ["L2"]
     [] [5] [[(1:ℚ), 2/21]] none none none [[(1:ℚ), 0]]
     (by norm_num) (by simp) (by simp) (by norm_num [numEstClasses])
     (by norm_num [mergeLabelsAux, resolveIdx2, resolveLabel, pyFind, npIndexE, npIndex,
        numEstClasses, mergeApply, mergeApplyAux, mergeFormula, subjSum, numSubjects,
        samseg_subjects, Int.toNat])
     (by simp) (by simp) (by norm_num [numEstClasses])⟩

/-- C10: a negative merge/add source index not smaller than minus the size
of the estimated class axis does not raise: numpy indexing resolves it to
the class counted from the end, and both the merge loop and the add phase
succeed with that class; among indices ≥ −size, only those ≥ size raise
`IndexError`. -/
theorem C10_negative_source_indexing (e : Est) (A : Mat) (i : ℤ)
    (fs : List ℤ) (lab : ℤ) (idx : ℕ)
    (h1 : -(numEstClasses e : ℤ) ≤ i) (h2 : i < 0)
    (hres : resolveLabel fs lab = .ok idx) :
    npIndex (numEstClasses e) i = some (i + (numEstClasses e : ℤ)).toNat ∧
    mergeLabelsAux fs e (some [i]) 0 [lab] A
      = .ok (mergeApply e idx (i + (numEstClasses e : ℤ)).toNat A) ∧
    addPhase e (some [i]) A = .ok (addSingle e (i + (numEstClasses e : ℤ)).toNat A) ∧
    (∀ j : ℤ, -(numEstClasses e : ℤ) ≤ j →
      (npIndex (numEstClasses e) j = none ↔ (numEstClasses e : ℤ) ≤ j)) := by
  have hnp : npIndex (numEstClasses e) i = some (i + (numEstClasses e : ℤ)).toNat := by
    rw [npIndex, if_neg (by omega), if_pos ⟨h1, h2⟩]
  refine ⟨hnp, ?_, ?_, ?_⟩
  · simp [mergeLabelsAux, resolveIdx2, hres, npIndexE, hnp]
  · simp [addPhase, resolveAll, hnp]
  · intro j hj
    rw [npIndex]
    split_ifs with hc1 hc2
    · exact iff_of_false (by simp) (by omega)
    · exact iff_of_false (by simp) (by omega)
    · exact iff_of_true rfl (by omega)

/-- C10 witness: source index −1 on a class axis of size 3 resolves to
class 2. -/
theorem C10_negative_source_indexing_witness :
    -(numEstClasses [[[(1:ℚ)], [2], [3]]] : ℤ) ≤ -1 ∧
    (-1 : ℤ) < 0 ∧
    resolveLabel [0, 5] 5 = .ok 1 ∧
    (npIndex (numEstClasses [[[(1:ℚ)], [2], [3]]]) (-1)
        = some ((-1) + (numEstClasses [[[(1:ℚ)], [2], [3]]] : ℤ)).toNat ∧
      mergeLabelsAux [0, 5] [[[(1:ℚ)], [2], [3]]] (some [-1]) 0 [5] [[(0:ℚ), 1]]
        = .ok (mergeApply [[[(1:ℚ)], [2], [3]]] 1
            ((-1) + (numEstClasses [[[(1:ℚ)], [2], [3]]] : ℤ)).toNat [[(0:ℚ), 1]]) ∧
      addPhase [[[(1:ℚ)], [2], [3]]] (some [-1]) [[(0:ℚ), 1]]
        = .ok (addSingle [[[(1:ℚ)], [2], [3]]]
            ((-1) + (numEstClasses [[[(1:ℚ)], [2], [3]]] : ℤ)).toNat [[(0:ℚ), 1]]) ∧
      (∀ j : ℤ, -(numEstClasses [[[(1:ℚ)], [2], [3]]] : ℤ) ≤ j →
        (npIndex (numEstClasses [[[(1:ℚ)], [2], [3]]]) j = none
          ↔ (numEstClasses [[[(1:ℚ)], [2], [3]]] : ℤ) ≤ j))) :=
  ⟨by norm_num [numEstClasses], by norm_num, by norm_num [resolveLabel, pyFind],
   C10_negative_source_indexing _ _ (-1) _ 5 1 (by norm_num [numEstClasses])
     (by norm_num) (by norm_num [resolveLabel, pyFind])⟩

/-- C8 witness at the already-normalized matrix `[[1]]`. -/
theorem C8_renormalize_idempotent_witness :
    (∀ r ∈ ([[(1:ℚ)]] : Mat), r.sum = 1) ∧
    0 < ([[(1:ℚ)]] : Mat).length ∧
    (entry (renormalize [[(1:ℚ)]]) 0 0 = entry [[(1:ℚ)]] 0 0 / (1 + eps) ∧
      entry (renormalize (renormalize [[(1:ℚ)]])) 0 0
        = entry [[(1:ℚ)]] 0 0 / (1 + eps + eps ^ 2) ∧
      |entry (renormalize [[(1:ℚ)]]) 0 0 - entry [[(1:ℚ)]] 0 0|
        ≤ eps * |entry [[(1:ℚ)]] 0 0| ∧
      |entry (renormalize (renormalize [[(1:ℚ)]])) 0 0 - entry (renormalize [[(1:ℚ)]]) 0 0|
        ≤ eps * |entry [[(1:ℚ)]] 0 0|) :=
  ⟨by norm_num, by norm_num, C8_renormalize_idempotent _ (by norm_num) 0 0 (by norm_num)⟩

end MergeAddMeshAlphas
